import Mathlib

/-!
mdSimpleButton: a polling push-button edge detector.

Shallow embedding of `src/mdSimpleButton.h` and `src/mdSimpleButton.cpp`.

* The object is the record `mdSimpleButton` with the fields of the C++ class.
* The Arduino calls made by the code (`Serial.println`, `pinMode`,
  `digitalRead`), the stores to `_active` and the calls through the `_onEvent`
  function pointer are recorded, in program order, in a trace of `Act`s.
* `digitalRead` is an input: a member function takes the pin behaviour as a
  function `rd : Nat → Int`, where `rd k` is the level returned by the
  `(k+1)`-th `digitalRead` executed during that call.
* A callback is an opaque handler identified by a number; calling it is
  recorded in the trace.  Handlers are assumed not to re-enter the button
  object.
-/

set_option linter.dupNamespace false

namespace MdSimpleButton

/-! ## Arduino constants used by the source -/

/-- Arduino level `HIGH` (`#define HIGH 0x1` in `Arduino.h`). -/
def HIGH : Int := 1

/-- Arduino level `LOW` (`#define LOW 0x0` in `Arduino.h`). -/
def LOW : Int := 0

/-- The pin modes named by the constructor.  Their numeric values are
platform-specific and are kept symbolic. -/
inductive PinMode where
  | INPUT
  | INPUT_PULLUP
  | INPUT_PULLDOWN
  | INPUT_PULLDOWN_16
deriving DecidableEq, Repr

/-- The compile-time facts the constructor tests with `#if defined(...)`. -/
structure Platform where
  /-- `defined(INPUT_PULLDOWN)` -/
  hasINPUT_PULLDOWN : Bool
  /-- `defined(ESP8266)` -/
  isESP8266 : Bool
deriving DecidableEq, Repr

/-- `#define VERSION 0x000100` -/
def VERSION : Int := 0x000100

/-! ## Types of the header -/

/-- `enum buttonEvent` -/
inductive buttonEvent where
  | BUTTON_UNCHANGED
  | BUTTON_PRESSED
  | BUTTON_RELEASED
deriving DecidableEq, Repr

open buttonEvent

/-- `typedef void (*buttonCallback)(buttonEvent)`: `none` is `nullptr`,
`some f` is the address of handler number `f`. -/
abbrev buttonCallback := Option Nat

/-- The observable actions of the code, in program order. -/
inductive Act where
  /-- `Serial.println(s)` -/
  | serialPrintln (s : String)
  /-- `pinMode(pin, mode)` -/
  | pinMode (pin : Nat) (mode : PinMode)
  /-- `digitalRead(pin)` returning `level` -/
  | digitalRead (pin : Nat) (level : Int)
  /-- the store `_active = v` -/
  | setActive (v : Bool)
  /-- the call `_onEvent(ev)` where `_onEvent` points to handler `f` -/
  | call (f : Nat) (ev : buttonEvent)
deriving DecidableEq, Repr

/-- `class mdSimpleButton`: the public `version` and the four private fields.
`_pin` is a `uint8_t`; it is only stored, compared and passed on. -/
structure mdSimpleButton where
  version : Int
  _pin : Nat
  _restState : Int
  _active : Bool
  _onEvent : buttonCallback
deriving DecidableEq, Repr

/-- What a member function leaves behind: the object, the returned value and
the actions performed, oldest first. -/
structure Outcome (α : Type) where
  state : mdSimpleButton
  ret : α
  trace : List Act

/-- Conversion `bool → int` of C++ (`_restState = activeLow`). -/
def boolToInt (b : Bool) : Int := if b then 1 else 0

/-- `if (_onEvent) _onEvent(ev);` -/
def fire (cb : buttonCallback) (ev : buttonEvent) : List Act :=
  match cb with
  | none => []
  | some f => [Act.call f ev]

/-- The mode computed by lines 18-30 of the constructor. -/
def selectMode (plat : Platform) (pin : Nat) (activeLow useInternalPullResistor : Bool) :
    PinMode :=
  if useInternalPullResistor then
    if activeLow then PinMode.INPUT_PULLUP
    else
      if plat.hasINPUT_PULLDOWN then PinMode.INPUT_PULLDOWN
      else if plat.isESP8266 then
        if pin = 16 then PinMode.INPUT_PULLDOWN_16 else PinMode.INPUT
      else PinMode.INPUT
  else PinMode.INPUT

/-- `void mdSimpleButton::onButtonEvent(buttonCallback cb)` -/
def mdSimpleButton.onButtonEvent (b : mdSimpleButton) (cb : buttonCallback) : Outcome Unit :=
  { state := { b with _onEvent := cb }
    ret := ()
    trace := [] }

/-- `buttonEvent mdSimpleButton::update(void)`.  `rd 0` is the level returned
by the `digitalRead` of line 40, `rd 1` the one returned by the `digitalRead`
of line 45, which is executed only when the first `if` is not taken. -/
def mdSimpleButton.update (b : mdSimpleButton) (rd : Nat → Int) : Outcome buttonEvent :=
  if rd 0 ≠ b._restState ∧ b._active = false then
    { state := { b with _active := true }
      ret := BUTTON_PRESSED
      trace := [Act.digitalRead b._pin (rd 0), Act.setActive true]
                 ++ fire b._onEvent BUTTON_PRESSED }
  else if rd 1 = b._restState ∧ b._active = true then
    { state := { b with _active := false }
      ret := BUTTON_RELEASED
      trace := [Act.digitalRead b._pin (rd 0), Act.digitalRead b._pin (rd 1),
                Act.setActive false] ++ fire b._onEvent BUTTON_RELEASED }
  else
    { state := b
      ret := BUTTON_UNCHANGED
      trace := [Act.digitalRead b._pin (rd 0), Act.digitalRead b._pin (rd 1)] }

/-- `mdSimpleButton::mdSimpleButton(pin, activeLow, useInternalPullResistor, callback)`,
compiled for the platform `plat`. -/
def mdSimpleButton.mdSimpleButton (plat : Platform) (pin : Nat) (activeLow : Bool)
    (useInternalPullResistor : Bool) (callback : buttonCallback) : Outcome Unit :=
  let mode := selectMode plat pin activeLow useInternalPullResistor
  { state :=
      { version := VERSION
        _pin := pin
        _restState := boolToInt activeLow
        _active := false
        _onEvent := callback }
    ret := ()
    trace := [Act.serialPrintln "Constructor", Act.pinMode pin mode] }

/-! ## Pin behaviours and runs -/

/-- A pin that returns the level `l` at every read of a call. -/
def steady (l : Int) : Nat → Int := fun _ => l

/-- The result of a run of successive `update()` calls: the final object, the
returned events in call order and the concatenated trace. -/
structure Run where
  state : mdSimpleButton
  events : List buttonEvent
  trace : List Act

/-- Successive `update()` calls, the `i`-th one under the pin behaviour
`rds[i]`. -/
def runCalls (b : mdSimpleButton) : List (Nat → Int) → Run
  | [] => { state := b, events := [], trace := [] }
  | rd :: rds =>
    let o := b.update rd
    let r := runCalls o.state rds
    { state := r.state, events := o.ret :: r.events, trace := o.trace ++ r.trace }

/-- Successive `update()` calls, one pin level per call. -/
def runLevels (b : mdSimpleButton) (levels : List Int) : Run :=
  runCalls b (levels.map steady)

/-! ## Observations on traces -/

/-- The callback invocations of a trace, in order. -/
def calls : List Act → List (Nat × buttonEvent)
  | [] => []
  | Act.call f ev :: t => (f, ev) :: calls t
  | _ :: t => calls t

/-- The levels returned by the `digitalRead`s of a trace, in order. -/
def reads : List Act → List Int
  | [] => []
  | Act.digitalRead _ l :: t => l :: reads t
  | _ :: t => reads t

/-- The `pinMode` calls of a trace, in order. -/
def pinModes : List Act → List (Nat × PinMode)
  | [] => []
  | Act.pinMode p m :: t => (p, m) :: pinModes t
  | _ :: t => pinModes t

/-- The stores to `_active` of a trace, in order. -/
def activeStores : List Act → List Bool
  | [] => []
  | Act.setActive v :: t => v :: activeStores t
  | _ :: t => activeStores t

/-! ## `update()` under a steady pin -/

/-- C1: with the pin at level `L` throughout the call, `update()` sets
`_active` and returns `BUTTON_PRESSED` when `L` differs from the rest state and
the button is inactive; else clears `_active` and returns `BUTTON_RELEASED`
when `L` equals the rest state and the button is active; else leaves `_active`
alone and returns `BUTTON_UNCHANGED`. -/
theorem update_steady_cases (b : mdSimpleButton) (L : Int) :
    (L ≠ b._restState ∧ b._active = false →
        (b.update (steady L)).state._active = true ∧
        (b.update (steady L)).ret = BUTTON_PRESSED) ∧
    (¬ (L ≠ b._restState ∧ b._active = false) ∧ (L = b._restState ∧ b._active = true) →
        (b.update (steady L)).state._active = false ∧
        (b.update (steady L)).ret = BUTTON_RELEASED) ∧
    (¬ (L ≠ b._restState ∧ b._active = false) ∧ ¬ (L = b._restState ∧ b._active = true) →
        (b.update (steady L)).state._active = b._active ∧
        (b.update (steady L)).ret = BUTTON_UNCHANGED) := by
  refine ⟨?_, ?_, ?_⟩
  · intro h
    simp [mdSimpleButton.update, steady, h]
  · rintro ⟨h1, h2⟩
    simp only [mdSimpleButton.update, steady, if_neg h1, if_pos h2, and_self]
  · rintro ⟨h1, h2⟩
    simp only [mdSimpleButton.update, steady, if_neg h1, if_neg h2, and_self]

/-- An inactive button with rest level `HIGH` and the pin held `LOW`:
`update()` sets `_active` and returns `BUTTON_PRESSED`. -/
theorem update_steady_cases_witness :
    ((mdSimpleButton.mk VERSION 2 HIGH false none).update (steady LOW)).state._active = true ∧
    ((mdSimpleButton.mk VERSION 2 HIGH false none).update (steady LOW)).ret = BUTTON_PRESSED :=
  (update_steady_cases (mdSimpleButton.mk VERSION 2 HIGH false none) LOW).1 ⟨by decide, rfl⟩

/-! ## Runs with one level per call -/

/-- The event `update()` returns under a steady pin, as a function of the
rest state, the `_active` flag before the call and the level. -/
def stepEvent (rest : Int) (a : Bool) (l : Int) : buttonEvent :=
  if l ≠ rest ∧ a = false then BUTTON_PRESSED
  else if l = rest ∧ a = true then BUTTON_RELEASED
  else BUTTON_UNCHANGED

theorem update_steady_ret (b : mdSimpleButton) (l : Int) :
    (b.update (steady l)).ret = stepEvent b._restState b._active l := by
  unfold mdSimpleButton.update stepEvent steady
  split_ifs <;> rfl

theorem update_steady_state (b : mdSimpleButton) (l : Int) :
    (b.update (steady l)).state = { b with _active := decide (l ≠ b._restState) } := by
  obtain ⟨v, p, r, a, c⟩ := b
  by_cases h : l = r <;> cases a <;> simp [mdSimpleButton.update, steady, h]

theorem runLevels_nil (b : mdSimpleButton) : (runLevels b []).events = [] := rfl

theorem runLevels_cons_events (b : mdSimpleButton) (l : Int) (ls : List Int) :
    (runLevels b (l :: ls)).events =
      stepEvent b._restState b._active l ::
        (runLevels { b with _active := decide (l ≠ b._restState) } ls).events := by
  simp only [runLevels, List.map_cons, runCalls]
  rw [update_steady_ret, update_steady_state]

theorem runLevels_cons_state (b : mdSimpleButton) (l : Int) (ls : List Int) :
    (runLevels b (l :: ls)).state =
      (runLevels { b with _active := decide (l ≠ b._restState) } ls).state := by
  simp only [runLevels, List.map_cons, runCalls]
  rw [update_steady_state]

/-- The `_active` flag seen by call number `i` of a run that starts in `b`. -/
def activeBefore (b : mdSimpleButton) (ls : List Int) : Nat → Bool
  | 0 => b._active
  | j + 1 => decide (ls[j]? ≠ some b._restState)

theorem runLevels_event_at (ls : List Int) :
    ∀ (b : mdSimpleButton) (i : Nat) (l : Int), ls[i]? = some l →
      (runLevels b ls).events[i]? =
        some (stepEvent b._restState (activeBefore b ls i) l) := by
  induction ls with
  | nil => intro b i l h; simp at h
  | cons x xs ih =>
    intro b i l h
    rw [runLevels_cons_events]
    cases i with
    | zero =>
      simp only [List.getElem?_cons_zero, Option.some.injEq] at h
      simp [activeBefore, h]
    | succ j =>
      simp only [List.getElem?_cons_succ] at h
      rw [List.getElem?_cons_succ, ih _ j l h]
      cases j with
      | zero => simp [activeBefore]
      | succ k => simp [activeBefore]

theorem getElem?_pred_of_succ {α : Type} (ls : List α) (j : Nat) (l : α)
    (h : ls[j + 1]? = some l) : ∃ p, ls[j]? = some p := by
  have hj : j + 1 < ls.length := by
    by_contra hn
    rw [List.getElem?_eq_none (by omega)] at h
    cases h
  exact ⟨ls[j], List.getElem?_eq_getElem (by omega)⟩

theorem mem_of_getElem?_some {α : Type} (ls : List α) (j : Nat) (l : α)
    (h : ls[j]? = some l) : l ∈ ls := by
  have hj : j < ls.length := by
    by_contra hn
    rw [List.getElem?_eq_none (by omega)] at h
    cases h
  rw [List.getElem?_eq_getElem hj] at h
  cases h
  exact List.getElem_mem hj

/-- C2: edge detection over a whole run of a freshly constructed button, one
level per `update()` call.  Call `i` returns `BUTTON_PRESSED` iff its level
differs from the rest level and (`i = 0` or the previous level is the rest
level); `BUTTON_RELEASED` iff `i > 0`, its level is the rest level and the
previous level is not; `BUTTON_UNCHANGED` otherwise.  For levels in
`{LOW, HIGH}` and `i > 0` a press of an active-low button is a
`HIGH`-to-`LOW` change and a release a `LOW`-to-`HIGH` change, and the reverse
for an active-high button.  The run `[HIGH, HIGH, LOW, LOW, HIGH]` of an
active-low button yields `[UNCHANGED, UNCHANGED, PRESSED, UNCHANGED, RELEASED]`. -/
theorem fresh_run_edge_detection (plat : Platform) (pin : Nat) (activeLow pull : Bool)
    (cb : buttonCallback) (ls : List Int) (i : Nat) (l : Int) (hl : ls[i]? = some l) :
    let b := (mdSimpleButton.mdSimpleButton plat pin activeLow pull cb).state
    let ev := (runLevels b ls).events[i]?
    (ev = some BUTTON_PRESSED ↔
        l ≠ b._restState ∧ (i = 0 ∨ ls[i - 1]? = some b._restState)) ∧
    (ev = some BUTTON_RELEASED ↔
        0 < i ∧ l = b._restState ∧ ∃ p, ls[i - 1]? = some p ∧ p ≠ b._restState) ∧
    (ev = some BUTTON_UNCHANGED ↔
        ¬ (l ≠ b._restState ∧ (i = 0 ∨ ls[i - 1]? = some b._restState)) ∧
        ¬ (0 < i ∧ l = b._restState ∧ ∃ p, ls[i - 1]? = some p ∧ p ≠ b._restState)) ∧
    ((∀ x ∈ ls, x = LOW ∨ x = HIGH) → 0 < i →
        (activeLow = true →
          (ev = some BUTTON_PRESSED ↔ ls[i - 1]? = some HIGH ∧ l = LOW) ∧
          (ev = some BUTTON_RELEASED ↔ ls[i - 1]? = some LOW ∧ l = HIGH)) ∧
        (activeLow = false →
          (ev = some BUTTON_PRESSED ↔ ls[i - 1]? = some LOW ∧ l = HIGH) ∧
          (ev = some BUTTON_RELEASED ↔ ls[i - 1]? = some HIGH ∧ l = LOW))) ∧
    (runLevels (mdSimpleButton.mdSimpleButton plat pin true pull cb).state
        [HIGH, HIGH, LOW, LOW, HIGH]).events =
      [BUTTON_UNCHANGED, BUTTON_UNCHANGED, BUTTON_PRESSED, BUTTON_UNCHANGED,
        BUTTON_RELEASED] := by
  intro b ev
  have hev : ev = some (stepEvent b._restState (activeBefore b ls i) l) :=
    runLevels_event_at ls b i l hl
  have hrest : b._restState = boolToInt activeLow := rfl
  have hact : b._active = false := rfl
  refine ⟨?_, ?_, ?_, ?_, ?_⟩
  · rw [hev]
    cases i with
    | zero => by_cases h : l = b._restState <;> simp [activeBefore, stepEvent, hact, h]
    | succ j =>
      obtain ⟨p, hp⟩ := getElem?_pred_of_succ ls j l hl
      by_cases h : l = b._restState <;> by_cases h2 : p = b._restState <;>
        simp [activeBefore, stepEvent, hp, h, h2]
  · rw [hev]
    cases i with
    | zero => by_cases h : l = b._restState <;> simp [activeBefore, stepEvent, hact, h]
    | succ j =>
      obtain ⟨p, hp⟩ := getElem?_pred_of_succ ls j l hl
      by_cases h : l = b._restState <;> by_cases h2 : p = b._restState <;>
        simp [activeBefore, stepEvent, hp, h, h2]
  · rw [hev]
    cases i with
    | zero => by_cases h : l = b._restState <;> simp [activeBefore, stepEvent, hact, h]
    | succ j =>
      obtain ⟨p, hp⟩ := getElem?_pred_of_succ ls j l hl
      by_cases h : l = b._restState <;> by_cases h2 : p = b._restState <;>
        simp [activeBefore, stepEvent, hp, h, h2]
  · intro hbin hi
    rw [hev]
    cases i with
    | zero => omega
    | succ j =>
      obtain ⟨p, hp⟩ := getElem?_pred_of_succ ls j l hl
      have hl2 := hbin l (mem_of_getElem?_some ls _ l hl)
      have hp2 := hbin p (mem_of_getElem?_some ls _ p hp)
      rw [hrest]
      simp only [Nat.add_sub_cancel, hp, Option.some.injEq, activeBefore, hrest]
      constructor
      · intro ha
        subst ha
        rcases hl2 with h | h <;> rcases hp2 with h2 | h2 <;> subst h <;> subst h2 <;>
          simp [stepEvent, boolToInt, HIGH, LOW]
      · intro ha
        subst ha
        rcases hl2 with h | h <;> rcases hp2 with h2 | h2 <;> subst h <;> subst h2 <;>
          simp [stepEvent, boolToInt, HIGH, LOW]
  · rfl

/-- A run of a fresh active-low button over `[HIGH, HIGH, LOW, LOW, HIGH]`:
call 2 samples `LOW` after a `HIGH`, and returns `BUTTON_PRESSED`. -/
theorem fresh_run_edge_detection_witness :
    ([HIGH, HIGH, LOW, LOW, HIGH] : List Int)[2]? = some LOW ∧
    (runLevels (mdSimpleButton.mdSimpleButton ⟨false, false⟩ 2 true true none).state
        [HIGH, HIGH, LOW, LOW, HIGH]).events[2]? = some BUTTON_PRESSED :=
  ⟨rfl,
   (fresh_run_edge_detection ⟨false, false⟩ 2 true true none [HIGH, HIGH, LOW, LOW, HIGH] 2 LOW
      rfl).1.2 ⟨by decide, Or.inr rfl⟩⟩

/-! ## The three paths through `update()` -/

/-- The three paths through `update()`, with the condition under which each is
taken. -/
theorem update_cases (b : mdSimpleButton) (rd : Nat → Int) :
    ((rd 0 ≠ b._restState ∧ b._active = false) ∧
      b.update rd =
        { state := { b with _active := true }
          ret := BUTTON_PRESSED
          trace := [Act.digitalRead b._pin (rd 0), Act.setActive true]
                     ++ fire b._onEvent BUTTON_PRESSED }) ∨
    (¬ (rd 0 ≠ b._restState ∧ b._active = false) ∧ (rd 1 = b._restState ∧ b._active = true) ∧
      b.update rd =
        { state := { b with _active := false }
          ret := BUTTON_RELEASED
          trace := [Act.digitalRead b._pin (rd 0), Act.digitalRead b._pin (rd 1),
                    Act.setActive false] ++ fire b._onEvent BUTTON_RELEASED }) ∨
    (¬ (rd 0 ≠ b._restState ∧ b._active = false) ∧
      ¬ (rd 1 = b._restState ∧ b._active = true) ∧
      b.update rd =
        { state := b
          ret := BUTTON_UNCHANGED
          trace := [Act.digitalRead b._pin (rd 0), Act.digitalRead b._pin (rd 1)] }) := by
  by_cases h1 : rd 0 ≠ b._restState ∧ b._active = false
  · exact Or.inl ⟨h1, by simp only [mdSimpleButton.update, if_pos h1]⟩
  · by_cases h2 : rd 1 = b._restState ∧ b._active = true
    · exact Or.inr (Or.inl ⟨h1, h2, by simp only [mdSimpleButton.update, if_neg h1, if_pos h2]⟩)
    · exact Or.inr (Or.inr ⟨h1, h2, by simp only [mdSimpleButton.update, if_neg h1, if_neg h2]⟩)

/-! ## The callback -/

/-- C3: on a button whose callback is the handler `f`, a call of `update()`
that returns `BUTTON_PRESSED` or `BUTTON_RELEASED` calls `f` exactly once, with
the returned event, as its last action and right after the store to `_active`;
a call that returns `BUTTON_UNCHANGED` does not call it.  On an inactive button
whose pin is away from the rest level, `f` is called once with
`BUTTON_PRESSED`. -/
theorem update_callback_once (b : mdSimpleButton) (f : Nat) (rd : Nat → Int)
    (hcb : b._onEvent = some f) :
    ((b.update rd).ret = BUTTON_PRESSED ∨ (b.update rd).ret = BUTTON_RELEASED →
        calls (b.update rd).trace = [(f, (b.update rd).ret)] ∧
        (b.update rd).state._active ≠ b._active ∧
        ∃ pre, (b.update rd).trace =
            pre ++ [Act.setActive (b.update rd).state._active, Act.call f (b.update rd).ret] ∧
          calls pre = [] ∧ activeStores pre = []) ∧
    ((b.update rd).ret = BUTTON_UNCHANGED → calls (b.update rd).trace = []) ∧
    (b._active = false → rd 0 ≠ b._restState →
        (b.update rd).ret = BUTTON_PRESSED ∧
        calls (b.update rd).trace = [(f, BUTTON_PRESSED)]) := by
  rcases update_cases b rd with ⟨h1, h⟩ | ⟨h1, h2, h⟩ | ⟨h1, h2, h⟩
  · rw [h, hcb]
    refine ⟨fun _ => ⟨by simp [fire, calls], by simp [h1.2], [Act.digitalRead b._pin (rd 0)],
      by simp [fire], by simp [calls], by simp [activeStores]⟩, by simp, ?_⟩
    intro _ _
    simp [fire, calls]
  · rw [h, hcb]
    refine ⟨fun _ => ⟨by simp [fire, calls], by simp [h2.2],
      [Act.digitalRead b._pin (rd 0), Act.digitalRead b._pin (rd 1)],
      by simp [fire], by simp [calls], by simp [activeStores]⟩, by simp, ?_⟩
    intro ha hr
    exact absurd ⟨hr, ha⟩ h1
  · rw [h]
    refine ⟨by simp, fun _ => by simp [calls], ?_⟩
    intro ha hr
    exact absurd ⟨hr, ha⟩ h1

/-- An inactive active-low button with handler 7, pin held `LOW`: handler 7 is
called exactly once, with `BUTTON_PRESSED`. -/
theorem update_callback_once_witness :
    calls ((mdSimpleButton.mk VERSION 2 HIGH false (some 7)).update (steady LOW)).trace =
      [(7, BUTTON_PRESSED)] :=
  ((update_callback_once (mdSimpleButton.mk VERSION 2 HIGH false (some 7)) 7 (steady LOW)
      rfl).2.2 rfl (by decide)).2

/-! ## Balance and alternation of the events of a run -/

/-- What a call of `update()` returns and what it does to `_active`, whatever
the pin does during the call. -/
theorem update_ret_active (b : mdSimpleButton) (rd : Nat → Int) :
    ((b.update rd).ret = BUTTON_PRESSED ∧ b._active = false ∧
        (b.update rd).state._active = true) ∨
    ((b.update rd).ret = BUTTON_RELEASED ∧ b._active = true ∧
        (b.update rd).state._active = false) ∨
    ((b.update rd).ret = BUTTON_UNCHANGED ∧ (b.update rd).state = b) := by
  rcases update_cases b rd with ⟨h1, h⟩ | ⟨_, h2, h⟩ | ⟨_, _, h⟩
  · exact Or.inl (by rw [h]; exact ⟨rfl, h1.2, rfl⟩)
  · exact Or.inr (Or.inl (by rw [h]; exact ⟨rfl, h2.2, rfl⟩))
  · exact Or.inr (Or.inr (by rw [h]; exact ⟨rfl, rfl⟩))

theorem runCalls_cons (b : mdSimpleButton) (rd : Nat → Int) (rds : List (Nat → Int)) :
    runCalls b (rd :: rds) =
      { state := (runCalls (b.update rd).state rds).state
        events := (b.update rd).ret :: (runCalls (b.update rd).state rds).events
        trace := (b.update rd).trace ++ (runCalls (b.update rd).state rds).trace } := rfl

/-- Presses and releases balance along any run, up to the `_active` flags at
its two ends. -/
theorem runCalls_balance (rds : List (Nat → Int)) :
    ∀ b : mdSimpleButton,
      (runCalls b rds).events.count BUTTON_PRESSED + (if b._active = true then 1 else 0) =
        (runCalls b rds).events.count BUTTON_RELEASED +
          (if (runCalls b rds).state._active = true then 1 else 0) := by
  induction rds with
  | nil => intro b; simp [runCalls]
  | cons rd rds ih =>
    intro b
    rw [runCalls_cons]
    have hi := ih (b.update rd).state
    rcases update_ret_active b rd with ⟨hr, ha, ha2⟩ | ⟨hr, ha, ha2⟩ | ⟨hr, hs⟩
    · rw [hr, ha]
      rw [ha2] at hi
      simp only [List.count_cons_self, ne_eq, reduceCtorEq, not_false_eq_true,
        List.count_cons_of_ne, Bool.false_eq_true, if_false, if_true] at hi ⊢
      omega
    · rw [hr, ha]
      rw [ha2] at hi
      simp only [List.count_cons_self, ne_eq, reduceCtorEq, not_false_eq_true,
        List.count_cons_of_ne, Bool.false_eq_true, if_false, if_true] at hi ⊢
      omega
    · rw [hr]
      rw [hs] at hi ⊢
      simp only [ne_eq, reduceCtorEq, not_false_eq_true, List.count_cons_of_ne]
      exact hi

/-- C4: along any run of a freshly constructed button, one level per
`update()` call, the number of `BUTTON_PRESSED` results equals the number of
`BUTTON_RELEASED` results or exceeds it by one, and exceeds it by one exactly
when the button is active after the last call. -/
theorem fresh_run_press_release_balance (plat : Platform) (pin : Nat) (activeLow pull : Bool)
    (cb : buttonCallback) (ls : List Int) :
    let r := runLevels (mdSimpleButton.mdSimpleButton plat pin activeLow pull cb).state ls
    (r.events.count BUTTON_PRESSED = r.events.count BUTTON_RELEASED ∨
      r.events.count BUTTON_PRESSED = r.events.count BUTTON_RELEASED + 1) ∧
    (r.events.count BUTTON_PRESSED = r.events.count BUTTON_RELEASED + 1 ↔
      r.state._active = true) := by
  intro r
  have h := runCalls_balance (ls.map steady)
    (mdSimpleButton.mdSimpleButton plat pin activeLow pull cb).state
  have h0 : (mdSimpleButton.mdSimpleButton plat pin activeLow pull cb).state._active = false :=
    rfl
  rw [h0] at h
  change r.events.count BUTTON_PRESSED + (if false = true then 1 else 0) =
    r.events.count BUTTON_RELEASED + (if r.state._active = true then 1 else 0) at h
  by_cases ha : r.state._active = true
  · simp only [ha, if_true, Bool.false_eq_true, if_false] at h
    exact ⟨by omega, fun _ => ha, fun _ => by omega⟩
  · simp only [ha, if_false, Bool.false_eq_true] at h
    exact ⟨by omega, fun hc => by omega, fun hc => absurd hc ha⟩

/-- The events other than `BUTTON_UNCHANGED`, in order. -/
def changes (evs : List buttonEvent) : List buttonEvent :=
  evs.filter (fun e => decide (e ≠ BUTTON_UNCHANGED))

/-- A list of events that alternates between presses and releases; it starts
with a release when `a` is true and with a press when `a` is false. -/
def alternatesFrom : Bool → List buttonEvent → Prop
  | _, [] => True
  | a, e :: es => e = (if a = true then BUTTON_RELEASED else BUTTON_PRESSED) ∧
      alternatesFrom (!a) es

theorem runCalls_alternates (rds : List (Nat → Int)) :
    ∀ b : mdSimpleButton, alternatesFrom b._active (changes (runCalls b rds).events) := by
  induction rds with
  | nil => intro b; simp [runCalls, changes, alternatesFrom]
  | cons rd rds ih =>
    intro b
    rw [runCalls_cons]
    have hi := ih (b.update rd).state
    rcases update_ret_active b rd with ⟨hr, ha, ha2⟩ | ⟨hr, ha, ha2⟩ | ⟨hr, hs⟩
    · rw [hr, ha]
      rw [ha2] at hi
      simpa [changes, alternatesFrom] using hi
    · rw [hr, ha]
      rw [ha2] at hi
      simpa [changes, alternatesFrom] using hi
    · rw [hr]
      rw [hs] at hi ⊢
      simpa [changes] using hi

theorem alternatesFrom_chain (es : List buttonEvent) :
    ∀ a : Bool, alternatesFrom a es → List.Chain' (fun x y => x ≠ y) es := by
  induction es with
  | nil => intro a _; exact List.chain'_nil
  | cons e es ih =>
    intro a h
    obtain ⟨he, ht⟩ := h
    cases es with
    | nil => exact List.chain'_singleton e
    | cons e2 es2 =>
      refine List.chain'_cons.mpr ⟨?_, ih _ ht⟩
      obtain ⟨he2, _⟩ := ht
      rw [he, he2]
      cases a <;> simp

/-- C5: along any run of a freshly constructed button, the results of
`update()` other than `BUTTON_UNCHANGED` alternate: no two neighbours are
equal, so there are never two `BUTTON_PRESSED` in a row nor two
`BUTTON_RELEASED` in a row, and the first of them, if any, is
`BUTTON_PRESSED`. -/
theorem fresh_run_alternates (plat : Platform) (pin : Nat) (activeLow pull : Bool)
    (cb : buttonCallback) (ls : List Int) :
    let r := runLevels (mdSimpleButton.mdSimpleButton plat pin activeLow pull cb).state ls
    (∀ e ∈ changes r.events, e = BUTTON_PRESSED ∨ e = BUTTON_RELEASED) ∧
    List.Chain' (fun x y => x ≠ y) (changes r.events) ∧
    ¬ [BUTTON_PRESSED, BUTTON_PRESSED] <:+: changes r.events ∧
    ¬ [BUTTON_RELEASED, BUTTON_RELEASED] <:+: changes r.events ∧
    (∀ e, (changes r.events).head? = some e → e = BUTTON_PRESSED) := by
  intro r
  have h : alternatesFrom false (changes r.events) :=
    runCalls_alternates (ls.map steady)
      (mdSimpleButton.mdSimpleButton plat pin activeLow pull cb).state
  have hc := alternatesFrom_chain _ _ h
  refine ⟨?_, hc, ?_, ?_, ?_⟩
  · intro e he
    have := (List.mem_filter.mp he).2
    cases e <;> simp at this ⊢
  · intro hin
    have := hc.infix hin
    simp at this
  · intro hin
    have := hc.infix hin
    simp at this
  · intro e he
    cases hl : changes r.events with
    | nil => rw [hl] at he; simp at he
    | cons x xs =>
      rw [hl] at h he
      simp only [List.head?_cons, Option.some.injEq] at he
      rw [← he]
      simpa using h.1

/-! ## The constructor -/

/-- C6: for every platform, pin, pull-resistor flag and callback the
constructor sets the rest level to `HIGH` (1) when `activeLow` is true and to
`LOW` (0) when it is false, clears `_active`, and stores the pin and the
callback. -/
theorem constructor_fields (plat : Platform) (pin : Nat) (pull : Bool) (cb : buttonCallback) :
    (mdSimpleButton.mdSimpleButton plat pin true pull cb).state._restState = HIGH ∧
    HIGH = 1 ∧
    (mdSimpleButton.mdSimpleButton plat pin false pull cb).state._restState = LOW ∧
    LOW = 0 ∧
    (∀ activeLow : Bool,
      (mdSimpleButton.mdSimpleButton plat pin activeLow pull cb).state._active = false ∧
      (mdSimpleButton.mdSimpleButton plat pin activeLow pull cb).state._pin = pin ∧
      (mdSimpleButton.mdSimpleButton plat pin activeLow pull cb).state._onEvent = cb) :=
  ⟨rfl, rfl, rfl, rfl, fun _ => ⟨rfl, rfl, rfl⟩⟩

/-- C7: the constructor calls `pinMode` exactly once, on the given pin.  The
mode is `INPUT` without a pull request; `INPUT_PULLUP` for a pull request on an
active-low button; for a pull request on an active-high button it is
`INPUT_PULLDOWN` where the platform defines it, else `INPUT_PULLDOWN_16` on an
ESP8266 for pin 16, else `INPUT`. -/
theorem constructor_pin_mode (plat : Platform) (pin : Nat) (activeLow pull : Bool)
    (cb : buttonCallback) :
    (∃ mode, pinModes (mdSimpleButton.mdSimpleButton plat pin activeLow pull cb).trace =
        [(pin, mode)]) ∧
    (pull = false →
      pinModes (mdSimpleButton.mdSimpleButton plat pin activeLow pull cb).trace =
        [(pin, PinMode.INPUT)]) ∧
    (pull = true → activeLow = true →
      pinModes (mdSimpleButton.mdSimpleButton plat pin activeLow pull cb).trace =
        [(pin, PinMode.INPUT_PULLUP)]) ∧
    (pull = true → activeLow = false → plat.hasINPUT_PULLDOWN = true →
      pinModes (mdSimpleButton.mdSimpleButton plat pin activeLow pull cb).trace =
        [(pin, PinMode.INPUT_PULLDOWN)]) ∧
    (pull = true → activeLow = false → plat.hasINPUT_PULLDOWN = false →
        plat.isESP8266 = true → pin = 16 →
      pinModes (mdSimpleButton.mdSimpleButton plat pin activeLow pull cb).trace =
        [(pin, PinMode.INPUT_PULLDOWN_16)]) ∧
    (pull = true → activeLow = false → plat.hasINPUT_PULLDOWN = false →
        ¬ (plat.isESP8266 = true ∧ pin = 16) →
      pinModes (mdSimpleButton.mdSimpleButton plat pin activeLow pull cb).trace =
        [(pin, PinMode.INPUT)]) := by
  refine ⟨⟨selectMode plat pin activeLow pull, rfl⟩, ?_, ?_, ?_, ?_, ?_⟩
  · intro h
    simp [mdSimpleButton.mdSimpleButton, pinModes, selectMode, h]
  · intro h1 h2
    simp [mdSimpleButton.mdSimpleButton, pinModes, selectMode, h1, h2]
  · intro h1 h2 h3
    simp [mdSimpleButton.mdSimpleButton, pinModes, selectMode, h1, h2, h3]
  · intro h1 h2 h3 h4 h5
    simp [mdSimpleButton.mdSimpleButton, pinModes, selectMode, h1, h2, h3, h4, h5]
  · intro h1 h2 h3 h4
    simp only [mdSimpleButton.mdSimpleButton, pinModes, selectMode, h1, h2, h3, if_true,
      Bool.false_eq_true, if_false]
    by_cases he : plat.isESP8266 = true
    · have hp : pin ≠ 16 := fun hp => h4 ⟨he, hp⟩
      simp [he, hp]
    · simp [he]

/-- A pull-down request for pin 4 of an active-high button on a platform with
neither `INPUT_PULLDOWN` nor `ESP8266`: the pin is made a plain `INPUT`. -/
theorem constructor_pin_mode_witness :
    pinModes (mdSimpleButton.mdSimpleButton ⟨false, false⟩ 4 false true none).trace =
      [(4, PinMode.INPUT)] :=
  (constructor_pin_mode ⟨false, false⟩ 4 false true none).2.2.2.2.2 rfl rfl rfl (by decide)

/-! ## Independence from the callback -/

/-- C8: two buttons that differ at most in `_onEvent`, under the same pin
behaviour, get the same event from `update()` and end with the same `_active`
flag; with no callback registered nothing is called and `BUTTON_PRESSED` and
`BUTTON_RELEASED` are returned all the same. -/
theorem update_independent_of_callback (b1 b2 : mdSimpleButton) (rd : Nat → Int)
    (hv : b1.version = b2.version) (hp : b1._pin = b2._pin)
    (hr : b1._restState = b2._restState) (ha : b1._active = b2._active) :
    (b1.update rd).ret = (b2.update rd).ret ∧
    (b1.update rd).state._active = (b2.update rd).state._active ∧
    (b1._onEvent = none →
      calls (b1.update rd).trace = [] ∧
      (rd 0 ≠ b1._restState ∧ b1._active = false →
        (b1.update rd).ret = BUTTON_PRESSED) ∧
      (b1._active = true ∧ rd 1 = b1._restState →
        (b1.update rd).ret = BUTTON_RELEASED)) := by
  obtain ⟨v1, p1, r1, a1, c1⟩ := b1
  obtain ⟨v2, p2, r2, a2, c2⟩ := b2
  simp only at hv hp hr ha
  subst hv hp hr ha
  refine ⟨?_, ?_, ?_⟩
  · unfold mdSimpleButton.update
    split_ifs <;> rfl
  · unfold mdSimpleButton.update
    split_ifs <;> rfl
  · intro hc
    simp only at hc
    subst hc
    refine ⟨?_, ?_, ?_⟩
    · unfold mdSimpleButton.update
      split_ifs <;> simp [fire, calls]
    · intro h
      simp only [mdSimpleButton.update, if_pos h]
    · rintro ⟨h1, h2⟩
      simp only at h1 h2
      simp [mdSimpleButton.update, h1, h2]

/-- An inactive active-low button with the pin held `LOW`: without a callback
`update()` returns the same event as with handler 7. -/
theorem update_independent_of_callback_witness :
    ((mdSimpleButton.mk VERSION 2 HIGH false none).update (steady LOW)).ret =
      ((mdSimpleButton.mk VERSION 2 HIGH false (some 7)).update (steady LOW)).ret :=
  (update_independent_of_callback (mdSimpleButton.mk VERSION 2 HIGH false none)
    (mdSimpleButton.mk VERSION 2 HIGH false (some 7)) (steady LOW) rfl rfl rfl rfl).1

/-! ## Replacing the callback -/

theorem calls_append (t1 t2 : List Act) : calls (t1 ++ t2) = calls t1 ++ calls t2 := by
  induction t1 with
  | nil => rfl
  | cons x xs ih => cases x <;> simp [calls, ih]

/-- The handlers `update()` calls: the registered one, for each returned event
other than `BUTTON_UNCHANGED`. -/
def delivered (cb : buttonCallback) (evs : List buttonEvent) : List (Nat × buttonEvent) :=
  match cb with
  | none => []
  | some f => (changes evs).map (fun e => (f, e))

theorem update_onEvent (b : mdSimpleButton) (rd : Nat → Int) :
    (b.update rd).state._onEvent = b._onEvent := by
  rcases update_cases b rd with ⟨_, h⟩ | ⟨_, _, h⟩ | ⟨_, _, h⟩ <;> rw [h]

theorem update_calls (b : mdSimpleButton) (rd : Nat → Int) :
    calls (b.update rd).trace = delivered b._onEvent [(b.update rd).ret] := by
  rcases update_cases b rd with ⟨_, h⟩ | ⟨_, _, h⟩ | ⟨_, _, h⟩ <;> rw [h] <;>
    cases b._onEvent <;> simp [fire, calls, delivered, changes]

theorem delivered_cons (cb : buttonCallback) (e : buttonEvent) (es : List buttonEvent) :
    delivered cb (e :: es) = delivered cb [e] ++ delivered cb es := by
  cases cb with
  | none => rfl
  | some f => cases e <;> simp [delivered, changes]

theorem runCalls_calls (rds : List (Nat → Int)) :
    ∀ b : mdSimpleButton,
      calls (runCalls b rds).trace = delivered b._onEvent (runCalls b rds).events := by
  induction rds with
  | nil => intro b; cases h : b._onEvent <;> simp [runCalls, calls, delivered, changes]
  | cons rd rds ih =>
    intro b
    rw [runCalls_cons]
    simp only
    rw [calls_append, ih, update_onEvent, update_calls, ← delivered_cons]

/-- C9: `onButtonEvent(cb)` stores `cb` in `_onEvent` and leaves `version`,
`_pin`, `_restState` and `_active` alone; it performs no action (no pin read,
no callback).  In every run of `update()` calls that follows, the calls made
are exactly one call of `cb` per returned event other than `BUTTON_UNCHANGED`
(none when `cb` is null), so every handler called is `cb` and a previously
registered handler other than `cb` is never called. -/
theorem onButtonEvent_replaces_callback (b : mdSimpleButton) (cb : buttonCallback)
    (rds : List (Nat → Int)) :
    (b.onButtonEvent cb).state._onEvent = cb ∧
    (b.onButtonEvent cb).state._pin = b._pin ∧
    (b.onButtonEvent cb).state._restState = b._restState ∧
    (b.onButtonEvent cb).state._active = b._active ∧
    (b.onButtonEvent cb).state.version = b.version ∧
    (b.onButtonEvent cb).trace = [] ∧
    calls (runCalls (b.onButtonEvent cb).state rds).trace =
      (match cb with
        | none => []
        | some f => (changes (runCalls (b.onButtonEvent cb).state rds).events).map
            (fun e => (f, e))) ∧
    (∀ g e, (g, e) ∈ calls (runCalls (b.onButtonEvent cb).state rds).trace → cb = some g) ∧
    (∀ g e, b._onEvent = some g → cb ≠ some g →
      (g, e) ∉ calls (runCalls (b.onButtonEvent cb).state rds).trace) := by
  have hc := runCalls_calls rds (b.onButtonEvent cb).state
  have hcb : (b.onButtonEvent cb).state._onEvent = cb := rfl
  rw [hcb] at hc
  have hall : ∀ g e, (g, e) ∈ calls (runCalls (b.onButtonEvent cb).state rds).trace →
      cb = some g := by
    intro g e hm
    rw [hc] at hm
    cases cb with
    | none => simp [delivered] at hm
    | some f =>
      simp only [delivered, List.mem_map, Prod.mk.injEq] at hm
      obtain ⟨_, _, hf, _⟩ := hm
      rw [hf]
  refine ⟨rfl, rfl, rfl, rfl, rfl, rfl, ?_, hall, ?_⟩
  · rw [hc]
    cases cb <;> rfl
  · intro g e _ hne hm
    exact hne (hall g e hm)

/-- Handler 7 replaced by handler 9 on an inactive active-low button, then a
press and a release: both events go to handler 9. -/
theorem onButtonEvent_replaces_callback_witness :
    calls (runCalls ((mdSimpleButton.mk VERSION 2 HIGH false (some 7)).onButtonEvent
        (some 9)).state [steady LOW, steady HIGH]).trace =
      [(9, BUTTON_PRESSED), (9, BUTTON_RELEASED)] :=
  (onButtonEvent_replaces_callback (mdSimpleButton.mk VERSION 2 HIGH false (some 7)) (some 9)
    [steady LOW, steady HIGH]).2.2.2.2.2.2.1

/-! ## `_active` and the level last read -/

/-- The level returned by the last `digitalRead` of a trace. -/
def lastRead (t : List Act) : Option Int := (reads t).getLast?

/-- A pin that returns `first` at the first read of a call and `later` at
every following read. -/
def glitch (first later : Int) : Nat → Int := fun k => if k = 0 then first else later

/-- C10, as stated, fails: an inactive active-low button whose pin reads
`HIGH` (the rest level) at the first read of the call and `LOW` at the second
stays inactive, although the level last read differs from the rest level. -/
theorem active_last_read_counterexample :
    ¬ (((mdSimpleButton.mk VERSION 2 HIGH false none).update (glitch HIGH LOW)).state._active
          = true ↔
        ∃ l, lastRead ((mdSimpleButton.mk VERSION 2 HIGH false none).update
            (glitch HIGH LOW)).trace = some l ∧
          l ≠ (mdSimpleButton.mk VERSION 2 HIGH false none)._restState) := by
  intro h
  have h2 := h.mpr ⟨LOW, rfl, by decide⟩
  exact absurd h2 (by decide)

/-- C10, amended: after a call of `update()` the `_active` flag is true
exactly when the level last read in that call differs from the rest level, for
every starting state and pin behaviour but one: when the button was inactive,
the first read returned the rest level and the second read another level, the
flag stays false and `BUTTON_UNCHANGED` is returned.  In particular the
equivalence holds whenever the pin keeps one level during the call. -/
theorem active_last_read (b : mdSimpleButton) (rd : Nat → Int) :
    (¬ (b._active = false ∧ rd 0 = b._restState ∧ rd 1 ≠ b._restState) →
      ((b.update rd).state._active = true ↔
        ∃ l, lastRead (b.update rd).trace = some l ∧ l ≠ b._restState)) ∧
    (b._active = false ∧ rd 0 = b._restState ∧ rd 1 ≠ b._restState →
      (b.update rd).state._active = false ∧
      (b.update rd).ret = BUTTON_UNCHANGED ∧
      lastRead (b.update rd).trace = some (rd 1)) ∧
    (∀ L : Int,
      ((b.update (steady L)).state._active = true ↔
        ∃ l, lastRead (b.update (steady L)).trace = some l ∧ l ≠ b._restState)) := by
  have key : ∀ rd : Nat → Int,
      ¬ (b._active = false ∧ rd 0 = b._restState ∧ rd 1 ≠ b._restState) →
      ((b.update rd).state._active = true ↔
        ∃ l, lastRead (b.update rd).trace = some l ∧ l ≠ b._restState) := by
    intro rd hex
    rcases update_cases b rd with ⟨h1, h⟩ | ⟨h1, h2, h⟩ | ⟨h1, h2, h⟩
    · rw [h]
      cases hc : b._onEvent <;> simp [lastRead, reads, fire, h1.1]
    · rw [h]
      cases hc : b._onEvent <;> simp [lastRead, reads, fire, h2.1]
    · rw [h]
      have hl : lastRead [Act.digitalRead b._pin (rd 0), Act.digitalRead b._pin (rd 1)] =
          some (rd 1) := rfl
      simp only [hl, Option.some.injEq]
      constructor
      · intro ha
        exact ⟨rd 1, rfl, fun heq => h2 ⟨heq, ha⟩⟩
      · rintro ⟨l, hl1, hl2⟩
        subst hl1
        by_contra ha
        have ha2 : b._active = false := by simpa using ha
        have h0 : rd 0 = b._restState := by
          by_contra h0
          exact h1 ⟨h0, ha2⟩
        exact hex ⟨ha2, h0, hl2⟩
  refine ⟨key rd, ?_, ?_⟩
  · rintro ⟨ha, h0, h1⟩
    have c1 : ¬ (rd 0 ≠ b._restState ∧ b._active = false) := fun c => c.1 h0
    have c2 : ¬ (rd 1 = b._restState ∧ b._active = true) := fun c => h1 c.1
    rcases update_cases b rd with ⟨h1, _⟩ | ⟨_, h2, _⟩ | ⟨_, _, h⟩
    · exact absurd h1 c1
    · exact absurd h2 c2
    · rw [h]
      exact ⟨ha, rfl, rfl⟩
  · intro L
    apply key
    rintro ⟨_, h0, h1⟩
    exact h1 h0

/-- An active button with rest level `HIGH` whose pin reads `LOW` and then
`HIGH` during the call: the button ends inactive, and the level last read is
the rest level. -/
theorem active_last_read_witness :
    ((mdSimpleButton.mk VERSION 2 HIGH true none).update (glitch LOW HIGH)).state._active = true ↔
      ∃ l, lastRead ((mdSimpleButton.mk VERSION 2 HIGH true none).update
          (glitch LOW HIGH)).trace = some l ∧
        l ≠ (mdSimpleButton.mk VERSION 2 HIGH true none)._restState :=
  (active_last_read (mdSimpleButton.mk VERSION 2 HIGH true none) (glitch LOW HIGH)).1
    (by decide)

/-! ## How often `update()` reads the pin -/

/-- The pins read by the `digitalRead`s of a trace, in order. -/
def readPins : List Act → List Nat
  | [] => []
  | Act.digitalRead p _ :: t => p :: readPins t
  | _ :: t => readPins t

theorem reads_fire (cb : buttonCallback) (ev : buttonEvent) : reads (fire cb ev) = [] := by
  cases cb <;> rfl

theorem readPins_fire (cb : buttonCallback) (ev : buttonEvent) :
    readPins (fire cb ev) = [] := by
  cases cb <;> rfl

theorem activeStores_fire (cb : buttonCallback) (ev : buttonEvent) :
    activeStores (fire cb ev) = [] := by
  cases cb <;> rfl

theorem pinModes_fire (cb : buttonCallback) (ev : buttonEvent) :
    pinModes (fire cb ev) = [] := by
  cases cb <;> rfl

/-- C11, as stated, fails: an inactive button with rest level `HIGH` whose pin
stays `HIGH` is read twice by one call of `update()`, not once. -/
theorem update_single_read_counterexample :
    ¬ (reads ((mdSimpleButton.mk VERSION 2 HIGH false none).update (steady HIGH)).trace).length
        = 1 := by
  decide

/-- C11, amended: a call of `update()` reads the button's own pin once when it
returns `BUTTON_PRESSED` (the levels read are `[rd 0]`) and twice in every
other case (the levels read are `[rd 0, rd 1]`), so a level that changes during
the call can be sampled at both values. -/
theorem update_read_count (b : mdSimpleButton) (rd : Nat → Int) :
    ((b.update rd).ret = BUTTON_PRESSED →
      reads (b.update rd).trace = [rd 0] ∧ readPins (b.update rd).trace = [b._pin]) ∧
    ((b.update rd).ret ≠ BUTTON_PRESSED →
      reads (b.update rd).trace = [rd 0, rd 1] ∧
      readPins (b.update rd).trace = [b._pin, b._pin]) ∧
    ((reads (b.update rd).trace).length = 1 ↔ (b.update rd).ret = BUTTON_PRESSED) ∧
    ((reads (b.update rd).trace).length = 2 ↔ (b.update rd).ret ≠ BUTTON_PRESSED) := by
  rcases update_cases b rd with ⟨_, h⟩ | ⟨_, _, h⟩ | ⟨_, _, h⟩
  · rw [h]
    simp [reads_fire, readPins_fire, reads, readPins]
  · rw [h]
    simp [reads_fire, readPins_fire, reads, readPins]
  · rw [h]
    simp [reads, readPins]

/-- An inactive button with rest level `HIGH` whose pin reads `HIGH` and then
`LOW` during the call: the call does not return `BUTTON_PRESSED` and samples
both levels. -/
theorem update_read_count_witness :
    reads ((mdSimpleButton.mk VERSION 2 HIGH false none).update (glitch HIGH LOW)).trace =
      [HIGH, LOW] :=
  ((update_read_count (mdSimpleButton.mk VERSION 2 HIGH false none) (glitch HIGH LOW)).2.1
    (by decide)).1

/-! ## At most one event per call -/

/-- C12: whatever the pin does during the call, one call of `update()` calls
a handler at most once, stores to `_active` at most once, and never delivers
both `BUTTON_PRESSED` and `BUTTON_RELEASED`: every handler call of the trace
carries the one event the call returns. -/
theorem update_at_most_one_event (b : mdSimpleButton) (rd : Nat → Int) :
    (calls (b.update rd).trace).length ≤ 1 ∧
    (activeStores (b.update rd).trace).length ≤ 1 ∧
    (∀ f e, (f, e) ∈ calls (b.update rd).trace → e = (b.update rd).ret) ∧
    ¬ ((∃ f, (f, BUTTON_PRESSED) ∈ calls (b.update rd).trace) ∧
       (∃ g, (g, BUTTON_RELEASED) ∈ calls (b.update rd).trace)) := by
  have hall : ∀ f e, (f, e) ∈ calls (b.update rd).trace → e = (b.update rd).ret := by
    intro f e hm
    rw [update_calls] at hm
    cases hc : b._onEvent with
    | none => rw [hc] at hm; simp [delivered] at hm
    | some g =>
      rw [hc] at hm
      simp only [delivered, changes, List.mem_map, List.mem_filter, List.mem_singleton,
        Prod.mk.injEq] at hm
      obtain ⟨x, ⟨hx, _⟩, _, hxe⟩ := hm
      rw [← hxe, hx]
  refine ⟨?_, ?_, hall, ?_⟩
  · rw [update_calls]
    cases b._onEvent with
    | none => simp [delivered]
    | some g =>
      simp only [delivered, changes, List.length_map]
      exact le_trans (List.length_filter_le _ _) (by simp)
  · rcases update_cases b rd with ⟨_, h⟩ | ⟨_, _, h⟩ | ⟨_, _, h⟩ <;> rw [h] <;>
      simp [activeStores_fire, activeStores]
  · rintro ⟨⟨f, hf⟩, ⟨g, hg⟩⟩
    have h1 := hall f _ hf
    have h2 := hall g _ hg
    rw [← h2] at h1
    cases h1

/-! ## A button at rest -/

/-- An inactive button whose pin is at the rest level at both reads takes the
third path of `update()`. -/
theorem update_inactive_at_rest (b : mdSimpleButton) (ha : b._active = false) :
    b.update (steady b._restState) =
      { state := b
        ret := BUTTON_UNCHANGED
        trace := [Act.digitalRead b._pin b._restState, Act.digitalRead b._pin b._restState] } := by
  rcases update_cases b (steady b._restState) with ⟨h1, _⟩ | ⟨_, h2, _⟩ | ⟨_, _, h⟩
  · exact absurd rfl h1.1
  · rw [ha] at h2
    exact absurd h2.2 (by decide)
  · exact h

theorem run_inactive_at_rest (b : mdSimpleButton) (ha : b._active = false) (n : Nat) :
    (runLevels b (List.replicate n b._restState)).events = List.replicate n BUTTON_UNCHANGED ∧
    (runLevels b (List.replicate n b._restState)).state = b ∧
    calls (runLevels b (List.replicate n b._restState)).trace = [] ∧
    activeStores (runLevels b (List.replicate n b._restState)).trace = [] := by
  induction n with
  | zero => exact ⟨rfl, rfl, rfl, rfl⟩
  | succ k ih =>
    obtain ⟨h1, h2, h3, h4⟩ := ih
    have hu := update_inactive_at_rest b ha
    unfold runLevels at h1 h2 h3 h4 ⊢
    simp only [List.replicate_succ, List.map_cons, runCalls_cons, hu]
    refine ⟨?_, h2, ?_, ?_⟩
    · rw [h1]
    · simpa [calls] using h3
    · simpa [activeStores] using h4

/-- C13: once a call of `update()` has returned `BUTTON_RELEASED`, any number
`n` of further calls made with the pin at the rest level all return
`BUTTON_UNCHANGED`, leave the object as it was and call no handler; the same
holds for a freshly constructed button. -/
theorem rest_is_idempotent (b : mdSimpleButton) (rd : Nat → Int) (plat : Platform)
    (pin : Nat) (activeLow pull : Bool) (cb : buttonCallback) (n : Nat) :
    ((b.update rd).ret = BUTTON_RELEASED →
      (runLevels (b.update rd).state
          (List.replicate n (b.update rd).state._restState)).events =
        List.replicate n BUTTON_UNCHANGED ∧
      (runLevels (b.update rd).state
          (List.replicate n (b.update rd).state._restState)).state = (b.update rd).state ∧
      calls (runLevels (b.update rd).state
          (List.replicate n (b.update rd).state._restState)).trace = []) ∧
    ((runLevels (mdSimpleButton.mdSimpleButton plat pin activeLow pull cb).state
        (List.replicate n
          (mdSimpleButton.mdSimpleButton plat pin activeLow pull cb).state._restState)).events =
        List.replicate n BUTTON_UNCHANGED ∧
      (runLevels (mdSimpleButton.mdSimpleButton plat pin activeLow pull cb).state
        (List.replicate n
          (mdSimpleButton.mdSimpleButton plat pin activeLow pull cb).state._restState)).state =
        (mdSimpleButton.mdSimpleButton plat pin activeLow pull cb).state ∧
      calls (runLevels (mdSimpleButton.mdSimpleButton plat pin activeLow pull cb).state
        (List.replicate n
          (mdSimpleButton.mdSimpleButton plat pin activeLow pull cb).state._restState)).trace =
        []) := by
  constructor
  · intro hr
    have ha : (b.update rd).state._active = false := by
      rcases update_ret_active b rd with ⟨h, _, _⟩ | ⟨_, _, h⟩ | ⟨h, _⟩
      · rw [hr] at h; cases h
      · exact h
      · rw [hr] at h; cases h
    obtain ⟨h1, h2, h3, _⟩ := run_inactive_at_rest (b.update rd).state ha n
    exact ⟨h1, h2, h3⟩
  · obtain ⟨h1, h2, h3, _⟩ :=
      run_inactive_at_rest (mdSimpleButton.mdSimpleButton plat pin activeLow pull cb).state rfl n
    exact ⟨h1, h2, h3⟩

/-- An active button with rest level `HIGH` is released, then polled three
times with the pin at `HIGH`: three times `BUTTON_UNCHANGED`. -/
theorem rest_is_idempotent_witness :
    (runLevels ((mdSimpleButton.mk VERSION 2 HIGH true (some 7)).update (steady HIGH)).state
        (List.replicate 3
          ((mdSimpleButton.mk VERSION 2 HIGH true (some 7)).update
            (steady HIGH)).state._restState)).events =
      List.replicate 3 BUTTON_UNCHANGED :=
  ((rest_is_idempotent (mdSimpleButton.mk VERSION 2 HIGH true (some 7)) (steady HIGH)
    ⟨false, false⟩ 2 true true none 3).1 (by decide)).1

/-! ## The first call after construction -/

/-- C14: the first `update()` of a freshly constructed button of either
polarity returns `BUTTON_PRESSED` when the pin is away from the rest level (for
binary levels: at the level opposite to the rest level) and `BUTTON_UNCHANGED`
when it is at the rest level; it never returns `BUTTON_RELEASED`, whatever the
pin does. -/
theorem fresh_first_update (plat : Platform) (pin : Nat) (activeLow pull : Bool)
    (cb : buttonCallback) (L : Int) (rd : Nat → Int) :
    (L ≠ (mdSimpleButton.mdSimpleButton plat pin activeLow pull cb).state._restState →
      ((mdSimpleButton.mdSimpleButton plat pin activeLow pull cb).state.update (steady L)).ret =
        BUTTON_PRESSED) ∧
    (L = (mdSimpleButton.mdSimpleButton plat pin activeLow pull cb).state._restState →
      ((mdSimpleButton.mdSimpleButton plat pin activeLow pull cb).state.update (steady L)).ret =
        BUTTON_UNCHANGED) ∧
    ((mdSimpleButton.mdSimpleButton plat pin activeLow pull cb).state.update
        (steady (boolToInt (!activeLow)))).ret = BUTTON_PRESSED ∧
    ((mdSimpleButton.mdSimpleButton plat pin activeLow pull cb).state.update
        (steady (boolToInt activeLow))).ret = BUTTON_UNCHANGED ∧
    ((mdSimpleButton.mdSimpleButton plat pin activeLow pull cb).state.update rd).ret ≠
      BUTTON_RELEASED := by
  have hp : ∀ l : Int,
      l ≠ (mdSimpleButton.mdSimpleButton plat pin activeLow pull cb).state._restState →
      ((mdSimpleButton.mdSimpleButton plat pin activeLow pull cb).state.update (steady l)).ret =
        BUTTON_PRESSED := by
    intro l hl
    rw [update_steady_ret]
    simp only [stepEvent]
    rw [if_pos ⟨hl, rfl⟩]
  have hu : ∀ l : Int,
      l = (mdSimpleButton.mdSimpleButton plat pin activeLow pull cb).state._restState →
      ((mdSimpleButton.mdSimpleButton plat pin activeLow pull cb).state.update (steady l)).ret =
        BUTTON_UNCHANGED := by
    intro l hl
    rw [update_steady_ret]
    simp only [stepEvent]
    rw [if_neg (fun c => c.1 hl), if_neg (fun c => Bool.noConfusion c.2)]
  refine ⟨hp L, hu L, hp _ ?_, hu _ rfl, ?_⟩
  · cases activeLow <;> simp [mdSimpleButton.mdSimpleButton, boolToInt]
  · rcases update_ret_active (mdSimpleButton.mdSimpleButton plat pin activeLow pull cb).state rd
      with ⟨h, _, _⟩ | ⟨_, h, _⟩ | ⟨h, _⟩
    · rw [h]; decide
    · exact Bool.noConfusion h
    · rw [h]; decide

/-- A fresh active-low button whose pin is already `LOW` at the first call:
`BUTTON_PRESSED`. -/
theorem fresh_first_update_witness :
    ((mdSimpleButton.mdSimpleButton ⟨false, false⟩ 2 true true none).state.update
        (steady LOW)).ret = BUTTON_PRESSED :=
  (fresh_first_update ⟨false, false⟩ 2 true true none LOW (steady LOW)).1 (by decide)

/-! ## What `update()` leaves alone -/

/-- C15: `update()` leaves `_pin`, `_restState`, `_onEvent` and `version` as
they were, so that `_active` is the only field it can change; it reads no pin
but `_pin` and never calls `pinMode`.  `onButtonEvent` leaves `_active` alone,
and so do the pin reads: after `update()` the flag holds the value of the
store to `_active` recorded in the trace, or its old value when there is no
store. -/
theorem update_frame (b : mdSimpleButton) (rd : Nat → Int) (cb : buttonCallback) :
    (b.update rd).state._pin = b._pin ∧
    (b.update rd).state._restState = b._restState ∧
    (b.update rd).state._onEvent = b._onEvent ∧
    (b.update rd).state.version = b.version ∧
    (b.update rd).state = { b with _active := (b.update rd).state._active } ∧
    (∀ p ∈ readPins (b.update rd).trace, p = b._pin) ∧
    pinModes (b.update rd).trace = [] ∧
    (b.onButtonEvent cb).state._active = b._active ∧
    (b.update rd).state._active = (activeStores (b.update rd).trace).getLast?.getD b._active := by
  rcases update_cases b rd with ⟨_, h⟩ | ⟨_, _, h⟩ | ⟨_, _, h⟩
  · rw [h]
    refine ⟨rfl, rfl, rfl, rfl, rfl, ?_, ?_, rfl, ?_⟩
    · simp [readPins, readPins_fire]
    · simp [pinModes, pinModes_fire]
    · simp [activeStores, activeStores_fire]
  · rw [h]
    refine ⟨rfl, rfl, rfl, rfl, rfl, ?_, ?_, rfl, ?_⟩
    · simp [readPins, readPins_fire]
    · simp [pinModes, pinModes_fire]
    · simp [activeStores, activeStores_fire]
  · rw [h]
    refine ⟨rfl, rfl, rfl, rfl, rfl, ?_, ?_, rfl, ?_⟩
    · simp [readPins]
    · simp [pinModes]
    · simp [activeStores]

/-! ## The two reads of `update()` and the single-sample step -/

/-- What one sampling step produces, in the terms of the specification: the
new object, the returned event and the handler calls made. -/
structure Sampled where
  state : mdSimpleButton
  ret : buttonEvent
  notified : List (Nat × buttonEvent)

/-- The single-sample step as the specification words it (section 4.1,
`update()`), on the one level read from the pin: if the level differs from the
rest level and the button is inactive, become active, invoke the callback (if
registered) with PRESSED and return PRESSED; else if the level equals the rest
level and the button is active, become inactive, invoke the callback (if
registered) with RELEASED and return RELEASED; else no state change, no
callback, return UNCHANGED. -/
def specSample (b : mdSimpleButton) (level : Int) : Sampled :=
  if level ≠ b._restState ∧ b._active = false then
    { state := { b with _active := true }
      ret := BUTTON_PRESSED
      notified := match b._onEvent with
        | none => []
        | some f => [(f, BUTTON_PRESSED)] }
  else if level = b._restState ∧ b._active = true then
    { state := { b with _active := false }
      ret := BUTTON_RELEASED
      notified := match b._onEvent with
        | none => []
        | some f => [(f, BUTTON_RELEASED)] }
  else
    { state := b
      ret := BUTTON_UNCHANGED
      notified := [] }

theorem calls_fire (cb : buttonCallback) (ev : buttonEvent) :
    calls (fire cb ev) = (match cb with
      | none => []
      | some f => [(f, ev)]) := by
  cases cb <;> rfl

/-- On an inactive button the outcome of `update()` is a function of the
first read. -/
theorem update_inactive (b : mdSimpleButton) (rd : Nat → Int) (ha : b._active = false) :
    (b.update rd).ret = (if rd 0 ≠ b._restState then BUTTON_PRESSED else BUTTON_UNCHANGED) ∧
    (b.update rd).state = (if rd 0 ≠ b._restState then { b with _active := true } else b) ∧
    calls (b.update rd).trace =
      (if rd 0 ≠ b._restState then calls (fire b._onEvent BUTTON_PRESSED) else []) := by
  rcases update_cases b rd with ⟨h1, h⟩ | ⟨_, h2, _⟩ | ⟨h1, _, h⟩
  · rw [h, if_pos h1.1, if_pos h1.1, if_pos h1.1]
    exact ⟨rfl, rfl, by simp [calls_append, calls]⟩
  · rw [ha] at h2
    exact Bool.noConfusion h2.2
  · have h0 : ¬ rd 0 ≠ b._restState := fun c => h1 ⟨c, ha⟩
    rw [h, if_neg h0, if_neg h0, if_neg h0]
    exact ⟨rfl, rfl, by simp [calls]⟩

/-- On an active button the outcome of `update()` is a function of the second
read. -/
theorem update_active (b : mdSimpleButton) (rd : Nat → Int) (ha : b._active = true) :
    (b.update rd).ret = (if rd 1 = b._restState then BUTTON_RELEASED else BUTTON_UNCHANGED) ∧
    (b.update rd).state = (if rd 1 = b._restState then { b with _active := false } else b) ∧
    calls (b.update rd).trace =
      (if rd 1 = b._restState then calls (fire b._onEvent BUTTON_RELEASED) else []) := by
  rcases update_cases b rd with ⟨h1, _⟩ | ⟨_, h2, h⟩ | ⟨_, h2, h⟩
  · rw [ha] at h1
    exact Bool.noConfusion h1.2
  · rw [h, if_pos h2.1, if_pos h2.1, if_pos h2.1]
    exact ⟨rfl, rfl, by simp [calls_append, calls]⟩
  · have h0 : ¬ rd 1 = b._restState := fun c => h2 ⟨c, ha⟩
    rw [h, if_neg h0, if_neg h0, if_neg h0]
    exact ⟨rfl, rfl, by simp [calls]⟩

/-- C16: `update()` reads the pin at most twice and one read decides the
outcome.  On an inactive button it returns `BUTTON_PRESSED` iff the first read
differs from the rest level, and two pin behaviours with the same first read
give the same event, object and handler calls.  On an active button it returns
`BUTTON_RELEASED` iff the second read equals the rest level, and two pin
behaviours with the same second read give the same event, object and handler
calls.  When both reads return the level `l`, the event, the object and the
handler calls are those of the single-sample step `specSample b l`. -/
theorem update_two_read_refinement (b : mdSimpleButton) (rd rd2 : Nat → Int) (l : Int) :
    (reads (b.update rd).trace).length ≤ 2 ∧
    (b._active = false →
      ((b.update rd).ret = BUTTON_PRESSED ↔ rd 0 ≠ b._restState) ∧
      (rd2 0 = rd 0 →
        (b.update rd2).ret = (b.update rd).ret ∧
        (b.update rd2).state = (b.update rd).state ∧
        calls (b.update rd2).trace = calls (b.update rd).trace)) ∧
    (b._active = true →
      ((b.update rd).ret = BUTTON_RELEASED ↔ rd 1 = b._restState) ∧
      (rd2 1 = rd 1 →
        (b.update rd2).ret = (b.update rd).ret ∧
        (b.update rd2).state = (b.update rd).state ∧
        calls (b.update rd2).trace = calls (b.update rd).trace)) ∧
    (rd 0 = l → rd 1 = l →
      (b.update rd).ret = (specSample b l).ret ∧
      (b.update rd).state = (specSample b l).state ∧
      calls (b.update rd).trace = (specSample b l).notified) := by
  refine ⟨?_, ?_, ?_, ?_⟩
  · rcases update_cases b rd with ⟨_, h⟩ | ⟨_, _, h⟩ | ⟨_, _, h⟩ <;> rw [h] <;>
      simp [reads, reads_fire]
  · intro ha
    obtain ⟨e1, e2, e3⟩ := update_inactive b rd ha
    refine ⟨?_, ?_⟩
    · rw [e1]
      by_cases h : rd 0 = b._restState <;> simp [h]
    · intro h0
      obtain ⟨f1, f2, f3⟩ := update_inactive b rd2 ha
      rw [e1, e2, e3, f1, f2, f3, h0]
      exact ⟨rfl, rfl, rfl⟩
  · intro ha
    obtain ⟨e1, e2, e3⟩ := update_active b rd ha
    refine ⟨?_, ?_⟩
    · rw [e1]
      by_cases h : rd 1 = b._restState <;> simp [h]
    · intro h0
      obtain ⟨f1, f2, f3⟩ := update_active b rd2 ha
      rw [e1, e2, e3, f1, f2, f3, h0]
      exact ⟨rfl, rfl, rfl⟩
  · intro h0 h1
    cases ha : b._active
    · obtain ⟨e1, e2, e3⟩ := update_inactive b rd ha
      rw [e1, e2, e3, h0, calls_fire]
      by_cases h : l = b._restState <;> simp [specSample, h, ha]
    · obtain ⟨e1, e2, e3⟩ := update_active b rd ha
      rw [e1, e2, e3, h1, calls_fire]
      by_cases h : l = b._restState <;> simp [specSample, h, ha]

/-- An active button with rest level `HIGH` and handler 7 whose pin reads
`LOW` and then `HIGH`: the second read decides, the call returns
`BUTTON_RELEASED`. -/
theorem update_two_read_refinement_witness :
    ((mdSimpleButton.mk VERSION 2 HIGH true (some 7)).update (glitch LOW HIGH)).ret =
      BUTTON_RELEASED :=
  ((update_two_read_refinement (mdSimpleButton.mk VERSION 2 HIGH true (some 7))
    (glitch LOW HIGH) (steady HIGH) HIGH).2.2.1 rfl).1.mpr rfl

/-! ## Polarity symmetry -/

/-- The complement of a binary level: `HIGH` for `LOW`, `LOW` for `HIGH`. -/
def complement (l : Int) : Int := if l = LOW then HIGH else LOW

theorem stepEvent_complement (a : Bool) (x : Int) (hx : x = LOW ∨ x = HIGH) :
    stepEvent HIGH a x = stepEvent LOW a (complement x) := by
  rcases hx with h | h <;> subst h <;> cases a <;> simp [stepEvent, complement, HIGH, LOW]

theorem active_complement (x : Int) (hx : x = LOW ∨ x = HIGH) :
    decide (x ≠ HIGH) = decide (complement x ≠ LOW) := by
  rcases hx with h | h <;> subst h <;> simp [complement, HIGH, LOW]

/-- Two buttons in the same `_active` state, one resting at `HIGH` and one at
`LOW`, fed complementary binary levels, return the same events and end in the
same `_active` state. -/
theorem run_complement (ls : List Int) :
    ∀ b1 b2 : mdSimpleButton, b1._restState = HIGH → b2._restState = LOW →
      b1._active = b2._active → (∀ x ∈ ls, x = LOW ∨ x = HIGH) →
      (runLevels b1 ls).events = (runLevels b2 (ls.map complement)).events ∧
      (runLevels b1 ls).state._active = (runLevels b2 (ls.map complement)).state._active := by
  induction ls with
  | nil => intro b1 b2 _ _ ha _; exact ⟨rfl, ha⟩
  | cons x xs ih =>
    intro b1 b2 h1 h2 ha hbin
    have hx := hbin x (List.mem_cons_self x xs)
    have hxs : ∀ y ∈ xs, y = LOW ∨ y = HIGH := fun y hy => hbin y (List.mem_cons_of_mem x hy)
    obtain ⟨v1, p1, r1, a1, c1⟩ := b1
    obtain ⟨v2, p2, r2, a2, c2⟩ := b2
    simp only at h1 h2 ha
    subst h1 h2 ha
    rw [List.map_cons, runLevels_cons_events, runLevels_cons_events, runLevels_cons_state,
      runLevels_cons_state]
    simp only
    rw [stepEvent_complement a1 x hx, active_complement x hx]
    obtain ⟨e1, e2⟩ := ih ⟨v1, p1, HIGH, decide (complement x ≠ LOW), c1⟩
      ⟨v2, p2, LOW, decide (complement x ≠ LOW), c2⟩ rfl rfl rfl hxs
    exact ⟨by rw [e1], e2⟩

/-- C17: for every sequence of levels in `{LOW, HIGH}`, a freshly constructed
active-low button fed the sequence and a freshly constructed active-high
button fed the complemented sequence (`HIGH` and `LOW` swapped) return the
same results, call by call, and have the same `_active` flag after every
number `k` of calls. -/
theorem polarity_symmetry (plat1 plat2 : Platform) (pin1 pin2 : Nat) (pull1 pull2 : Bool)
    (cb1 cb2 : buttonCallback) (ls : List Int) (hbin : ∀ x ∈ ls, x = LOW ∨ x = HIGH) :
    complement HIGH = LOW ∧ complement LOW = HIGH ∧
    (runLevels (mdSimpleButton.mdSimpleButton plat1 pin1 true pull1 cb1).state ls).events =
      (runLevels (mdSimpleButton.mdSimpleButton plat2 pin2 false pull2 cb2).state
        (ls.map complement)).events ∧
    (∀ k : Nat,
      (runLevels (mdSimpleButton.mdSimpleButton plat1 pin1 true pull1 cb1).state
          (ls.take k)).state._active =
        (runLevels (mdSimpleButton.mdSimpleButton plat2 pin2 false pull2 cb2).state
          ((ls.map complement).take k)).state._active) := by
  refine ⟨by decide, by decide, ?_, ?_⟩
  · exact (run_complement ls (mdSimpleButton.mdSimpleButton plat1 pin1 true pull1 cb1).state
      (mdSimpleButton.mdSimpleButton plat2 pin2 false pull2 cb2).state rfl rfl rfl hbin).1
  · intro k
    rw [← List.map_take]
    exact (run_complement (ls.take k)
      (mdSimpleButton.mdSimpleButton plat1 pin1 true pull1 cb1).state
      (mdSimpleButton.mdSimpleButton plat2 pin2 false pull2 cb2).state rfl rfl rfl
      (fun x hx => hbin x (List.mem_of_mem_take hx))).2

/-- The run `[HIGH, LOW, LOW, HIGH]` on an active-low button and its
complement `[LOW, HIGH, HIGH, LOW]` on an active-high button return the same
events. -/
theorem polarity_symmetry_witness :
    (runLevels (mdSimpleButton.mdSimpleButton ⟨false, false⟩ 2 true true none).state
        [HIGH, LOW, LOW, HIGH]).events =
      (runLevels (mdSimpleButton.mdSimpleButton ⟨true, false⟩ 3 false true (some 7)).state
        [LOW, HIGH, HIGH, LOW]).events :=
  (polarity_symmetry ⟨false, false⟩ ⟨true, false⟩ 2 3 true true none (some 7)
    [HIGH, LOW, LOW, HIGH] (by decide)).2.2.1

end MdSimpleButton
